import Mathlib

/-!
# VectrexScreenLimitTest: a shallow embedding of `main.c`

The program is written for a 6809 C compiler whose `int` has 8 bits and whose
`long` has 16 bits, as the comments on the typedefs in `main.c` say:

* `UINT8`  : unsigned 8-bit,  modelled as a `Nat` below `256`;
* `SINT8`  : signed 8-bit,    modelled as an `Int` in `[-128, 127]`;
* `UINT16` : unsigned 16-bit, modelled as a `Nat` below `65536`.

Unsigned arithmetic is reduced modulo `2^16` explicitly.  Signed 8-bit negation
has no result when the negated value is not representable, so it returns an
`Option`; so does a write outside an array.  A function that mutates through a
pointer takes the pointed-to value and returns the new one.
-/

namespace VectrexScreenLimitTest

/-! ## Machine arithmetic -/

/-- Conversion of a signed value to `UINT16`: reduction modulo `2^16`. -/
def toUINT16 (x : Int) : Nat := (x % 65536).toNat

/-- Conversion of an unsigned value to `UINT8`: the low eight bits. -/
def toUINT8 (x : Nat) : Nat := x % 256

/-- Conversion of an unsigned value to `SINT8` (the two's-complement reading of
the low eight bits). -/
def toSINT8 (x : Nat) : Int :=
  if x % 256 < 128 then ((x % 256 : Nat) : Int) else ((x % 256 : Nat) : Int) - 256

/-- Unary minus in the signed 8-bit type; there is no result when the negated
value does not fit in `[-128, 127]`. -/
def negSINT8 (x : Int) : Option Int :=
  if -128 ≤ -x ∧ -x ≤ 127 then some (-x) else none

/-- Addition in `UINT16`. -/
def add16 (a b : Nat) : Nat := (a + b) % 65536

/-- Subtraction in `UINT16`. -/
def sub16 (a b : Nat) : Nat := (a % 65536 + (65536 - b % 65536)) % 65536

/-- The single-bit left shift `x << 1` in `UINT16`. -/
def shl1 (x : Nat) : Nat := (x * 2) % 65536

/-- The single-bit right shift `x >> 1` of an unsigned value. -/
def shr1 (x : Nat) : Nat := x / 2

/-- The macro `toHighOrderByte(x)`: `(UINT16)(x)` shifted left by one bit, eight
times. -/
def toHighOrderByte (x : Int) : Nat :=
  shl1 (shl1 (shl1 (shl1 (shl1 (shl1 (shl1 (shl1 (toUINT16 x))))))))

/-- The macro `getHighOrderByte(x)`: `x` shifted right by one bit, eight times,
then converted to `UINT8`. -/
def getHighOrderByte (x : Nat) : Nat :=
  toUINT8 (shr1 (shr1 (shr1 (shr1 (shr1 (shr1 (shr1 (shr1 x))))))))

/-! ## The parameter adjuster -/

/-- The function `clampToRange` of `main.c`. -/
def clampToRange (value min max : Nat) : Nat :=
  if value < min then min
  else if value > max then max
  else value

/-- The constant `JOY_DEAD_ZONE` local to `adjustVariable`. -/
def JOY_DEAD_ZONE : Int := 30

/-- The function `adjustVariable` of `main.c`.  `current` is the value found
behind `variablePtr`; the result is the value stored back through it. -/
def adjustVariable (current : Nat) (joystickAxisValue : Int)
    (minValue maxValue : Nat) : Option Nat :=
  if joystickAxisValue > JOY_DEAD_ZONE then
    some (clampToRange
      (add16 current (shl1 (sub16 (toUINT16 joystickAxisValue) (toUINT16 JOY_DEAD_ZONE))))
      minValue maxValue)
  else
    (negSINT8 JOY_DEAD_ZONE).bind fun negDeadZone =>
      if joystickAxisValue < negDeadZone then
        (if joystickAxisValue = -128 then some (toUINT16 127)
          else (negSINT8 joystickAxisValue).map toUINT16).bind fun magnitude =>
            some (clampToRange
              (sub16 current (shl1 (sub16 magnitude (toUINT16 JOY_DEAD_ZONE))))
              minValue maxValue)
      else
        some (clampToRange current minValue maxValue)

/-! ## The frame loop of `main` -/

/-- The constant `DEFAULT_WIDTH` of `main`. -/
def DEFAULT_WIDTH : Nat := 80

/-- The constant `MIN_SCALE_16` of `main`. -/
def MIN_SCALE_16 : Nat := toHighOrderByte 10

/-- The constant `MAX_SCALE_16` of `main`. -/
def MAX_SCALE_16 : Nat := toHighOrderByte 200

/-- The constant `MIN_WIDTH_16` of `main`. -/
def MIN_WIDTH_16 : Nat := toHighOrderByte 10

/-- The constant `MAX_WIDTH_16` of `main`. -/
def MAX_WIDTH_16 : Nat := toHighOrderByte 127

/-- The initial contents of the array `vectorList` of `main`.  The initialiser
negates the constant `(SINT8)DEFAULT_WIDTH`, which is `80`, so the negation is
representable (see `negSINT8_defaultWidth`). -/
def initialVectorList : List Int :=
  [ 8,
    0, -(toSINT8 DEFAULT_WIDTH),
    -127, 0,
    0, toSINT8 DEFAULT_WIDTH,
    0, toSINT8 DEFAULT_WIDTH,
    127, 0,
    127, 0,
    0, -(toSINT8 DEFAULT_WIDTH),
    0, -(toSINT8 DEFAULT_WIDTH),
    -127, 0 ]

/-- The assignment `xs[i] = x`; there is no result when `i` is outside the
array. -/
def writeAt (xs : List Int) (i : Nat) (x : Int) : Option (List Int) :=
  if i < xs.length then some (xs.set i x) else none

/-- The five assignments to `vectorList` in the loop body of `main`
("Update the width in the box vector list"), in source order. -/
def updateBox (vectorList : List Int) (width : Nat) : Option (List Int) :=
  (negSINT8 (toSINT8 width)).bind fun n2 =>
  (writeAt vectorList 2 n2).bind fun vl2 =>
  (writeAt vl2 6 (toSINT8 width)).bind fun vl6 =>
  (writeAt vl6 8 (toSINT8 width)).bind fun vl8 =>
  (negSINT8 (toSINT8 width)).bind fun n14 =>
  (writeAt vl8 14 n14).bind fun vl14 =>
  (negSINT8 (toSINT8 width)).bind fun n16 =>
  writeAt vl14 16 n16

/-- The indices of `vectorList` assigned in the loop body of `main`. -/
def boxWriteIndices : List Nat := [2, 6, 8, 14, 16]

/-- The variables of `main` that live across iterations of its loop. -/
structure FrameState where
  scale16 : Nat
  width16 : Nat
  vectorList : List Int
  deriving DecidableEq, Repr

/-- The state of `main` on entry to its loop. -/
def initialState : FrameState :=
  { scale16 := toHighOrderByte 100
    width16 := toHighOrderByte (DEFAULT_WIDTH : Int)
    vectorList := initialVectorList }

/-- One iteration of the loop of `main`, given the samples that `Joy_Analog`
left in `Vec_Joy_1_Y` and `Vec_Joy_1_X`.  The locals `scale` and `width` are
`getHighOrderByte` of the two adjusted parameters; the drawing and printing
calls that follow read them and the array and change none of the three
variables. -/
def frame (s : FrameState) (joyY joyX : Int) : Option FrameState :=
  (adjustVariable s.scale16 joyY MIN_SCALE_16 MAX_SCALE_16).bind fun scale16 =>
  (adjustVariable s.width16 joyX MIN_WIDTH_16 MAX_WIDTH_16).bind fun width16 =>
  (updateBox s.vectorList (getHighOrderByte width16)).bind fun vectorList =>
  some { scale16 := scale16, width16 := width16, vectorList := vectorList }

/-- The loop of `main` run over a finite sequence of `(Y, X)` sample pairs, one
pair per iteration. -/
def runFrames (s : FrameState) : List (Int × Int) → Option FrameState
  | [] => some s
  | (joyY, joyX) :: rest => (frame s joyY joyX).bind fun s1 => runFrames s1 rest

/-! ## The string conversion -/

/-- The constant `numDigits` local to `numToString`. -/
def numDigits : Nat := 3

/-- The assignment `str[i] = x` on an array of `UINT8`; there is no result when
`i` is outside the array. -/
def writeByteAt (str : List Nat) (i : Nat) (x : Nat) : Option (List Nat) :=
  if i < str.length then some (str.set i x) else none

/-- The decrement `x--` in the signed 8-bit type; there is no result when
`x - 1` does not fit in `[-128, 127]`. -/
def decSINT8 (x : Int) : Option Int :=
  if -128 ≤ x - 1 ∧ x - 1 ≤ 127 then some (x - 1) else none

/-- The `for` loop of `numToString`, entered at its test `strPos >= 0` with the
current contents of `str[]`, of `num` and of `strPos`.  Each test of the
condition uses one unit of fuel. -/
def numToStringLoop : Nat → List Nat → Nat → Int → Option (List Nat)
  | 0, _, _, _ => none
  | fuel + 1, str, num, strPos =>
    if strPos ≥ 0 then
      (writeByteAt str strPos.toNat (toUINT8 (toUINT8 (num % 10) + 48))).bind fun str1 =>
        (decSINT8 strPos).bind fun strPos1 =>
          numToStringLoop fuel str1 (toUINT8 (num / 10)) strPos1
    else some str

/-- The function `numToString` of `main.c`: the result is the contents of
`str[]` on return. -/
def numToString (fuel : Nat) (str : List Nat) (num : Nat) : Option (List Nat) :=
  (numToStringLoop fuel str num (toSINT8 (toUINT8 (numDigits - 1)))).bind fun str1 =>
    writeByteAt str1 numDigits 0x80

/-! ## Reference notions used in the statements -/

/-- Clamping of an exact integer: below `min` gives `min`, above `max` gives
`max`, otherwise the value itself. -/
def clampInt (value min max : Int) : Int :=
  if value < min then min
  else if value > max then max
  else value

/-- The magnitude taken for a sample below the dead zone: `127` for `-128`, and
the negated sample otherwise. -/
def magnitudeOf (a : Int) : Int := if a = -128 then 127 else -a

/-- A sample is a signed 8-bit value. -/
def isSINT8 (a : Int) : Prop := -128 ≤ a ∧ a ≤ 127

instance (a : Int) : Decidable (isSINT8 a) := by
  unfold isSINT8
  infer_instance

/-- The update of the variable by the sample `a` leaves the range of `UINT16`
neither at the top nor at the bottom. -/
def noWrap (v : Nat) (a : Int) : Prop :=
  (30 < a → (v : Int) + (a - 30) * 2 ≤ 65535) ∧
  (a < -30 → (magnitudeOf a - 30) * 2 ≤ (v : Int))

instance (v : Nat) (a : Int) : Decidable (noWrap v a) := by
  unfold noWrap
  infer_instance

/-- The coordinate pairs of a vector list whose count byte has been removed, in
the format that the display routine `Mov_Draw_VLc_a` is handed: each pair is
`(dy, dx)`. -/
def vectorPairs : List Int → List (Int × Int)
  | dy :: dx :: rest => (dy, dx) :: vectorPairs rest
  | _ => []

/-- The positions `(y, x)` visited by a pen that starts at `p` and follows the
relative pairs in turn. -/
def penPath (p : Int × Int) : List (Int × Int) → List (Int × Int)
  | [] => [p]
  | d :: ds => p :: penPath (p.1 + d.1, p.2 + d.2) ds

/-- The exact change that a sample asks for: twice the excess over the dead zone,
with the sign of the sample, and `0` inside the dead zone. -/
def axisDelta (a : Int) : Int :=
  if a > 30 then 2 * (a - 30)
  else if a < -30 then -(2 * (magnitudeOf a - 30))
  else 0

/-- A coordinate pair `(dy, dx)` that moves along the horizontal axis only. -/
def isHorizontal (d : Int × Int) : Prop := d.1 = 0 ∧ d.2 ≠ 0

/-- A coordinate pair `(dy, dx)` that moves along the vertical axis only. -/
def isVertical (d : Int × Int) : Prop := d.1 ≠ 0 ∧ d.2 = 0

instance (d : Int × Int) : Decidable (isHorizontal d) :=
  inferInstanceAs (Decidable (d.1 = 0 ∧ d.2 ≠ 0))

instance (d : Int × Int) : Decidable (isVertical d) :=
  inferInstanceAs (Decidable (d.1 ≠ 0 ∧ d.2 = 0))

/-- The contents of the array `vectorList` for the half-width `t`. -/
def boxFor (t : Int) : List Int :=
  [8, 0, -t, -127, 0, 0, t, 0, t, 127, 0, 127, 0, 0, -t, 0, -t, -127, 0]

/-- Two coordinate pairs that are both horizontal moves or both vertical
moves. -/
def sameAxis (p q : Int × Int) : Prop :=
  (isHorizontal p ∧ isHorizontal q) ∨ (isVertical p ∧ isVertical q)

instance (p q : Int × Int) : Decidable (sameAxis p q) :=
  inferInstanceAs (Decidable ((isHorizontal p ∧ isHorizontal q) ∨ (isVertical p ∧ isVertical q)))

/-- The array holds the box for the truncated width, and the ranges of the loop
hold. -/
def boxInv (s : FrameState) : Prop :=
  2560 ≤ s.width16 ∧ s.width16 ≤ 32512 ∧ 2560 ≤ s.scale16 ∧ s.scale16 ≤ 51200
    ∧ s.vectorList = boxFor (getHighOrderByte s.width16)

/-- The ranges that the loop of `main` maintains: both parameters inside their
bounds and the array long enough for the five writes. -/
def frameInv (s : FrameState) : Prop :=
  2560 ≤ s.scale16 ∧ s.scale16 ≤ 51200 ∧ 2560 ≤ s.width16 ∧ s.width16 ≤ 32512
    ∧ s.vectorList.length = 19

/-! ## Basic facts about the adjuster -/

theorem clampToRange_mem (value min max : Nat) (h : min ≤ max) :
    min ≤ clampToRange value min max ∧ clampToRange value min max ≤ max := by
  unfold clampToRange
  split_ifs <;> omega

theorem clampToRange_of_mem (value min max : Nat) (h₁ : min ≤ value) (h₂ : value ≤ max) :
    clampToRange value min max = value := by
  unfold clampToRange
  split_ifs <;> omega

theorem clampToRange_mono (x y min max : Nat) (h : min ≤ max) (hxy : x ≤ y) :
    clampToRange x min max ≤ clampToRange y min max := by
  unfold clampToRange
  split_ifs <;> omega

theorem negSINT8_deadZone : negSINT8 JOY_DEAD_ZONE = some (-30) := by
  decide

/-- In the dead zone the variable is only clamped. -/
theorem adjustVariable_dead (v : Nat) (a : Int) (mn mx : Nat)
    (h₁ : -30 ≤ a) (h₂ : a ≤ 30) :
    adjustVariable v a mn mx = some (clampToRange v mn mx) := by
  have h₃ : ¬ a > JOY_DEAD_ZONE := by simp only [JOY_DEAD_ZONE]; omega
  have h₄ : ¬ a < -30 := by omega
  simp [adjustVariable, negSINT8_deadZone, h₃, h₄]

/-- Above the dead zone the doubled excess is added modulo `2^16`. -/
theorem adjustVariable_pos (v : Nat) (a : Int) (mn mx : Nat)
    (h₁ : 30 < a) (h₂ : a ≤ 127) :
    adjustVariable v a mn mx
      = some (clampToRange ((v + 2 * (a - 30).toNat) % 65536) mn mx) := by
  have h₃ : a > JOY_DEAD_ZONE := by simp only [JOY_DEAD_ZONE]; omega
  have h₄ : add16 v (shl1 (sub16 (toUINT16 a) (toUINT16 JOY_DEAD_ZONE)))
      = (v + 2 * (a - 30).toNat) % 65536 := by
    simp only [add16, shl1, sub16, toUINT16, JOY_DEAD_ZONE]
    omega
  simp [adjustVariable, h₃, h₄]

/-- Below the dead zone the doubled excess of the magnitude is subtracted modulo
`2^16`. -/
theorem adjustVariable_neg (v : Nat) (a : Int) (mn mx : Nat)
    (h₁ : -128 ≤ a) (h₂ : a < -30) :
    adjustVariable v a mn mx
      = some (clampToRange
          ((v % 65536 + (65536 - 2 * (magnitudeOf a - 30).toNat)) % 65536) mn mx) := by
  have h₃ : ¬ a > JOY_DEAD_ZONE := by simp only [JOY_DEAD_ZONE]; omega
  by_cases h₅ : a = -128
  · subst h₅
    unfold adjustVariable
    rw [if_neg h₃, negSINT8_deadZone]
    simp [magnitudeOf, sub16, shl1, toUINT16, JOY_DEAD_ZONE]
  · have h₆ : negSINT8 a = some (-a) := by
      unfold negSINT8
      rw [if_pos]
      omega
    have h₇ : sub16 v (shl1 (sub16 (toUINT16 (-a)) (toUINT16 JOY_DEAD_ZONE)))
        = (v % 65536 + (65536 - 2 * (magnitudeOf a - 30).toNat)) % 65536 := by
      simp only [sub16, shl1, toUINT16, JOY_DEAD_ZONE, magnitudeOf, if_neg h₅]
      omega
    unfold adjustVariable
    rw [if_neg h₃, negSINT8_deadZone]
    simp [h₂, h₅, h₆, h₇]
/-- For every signed 8-bit sample `adjustVariable` has a result, inside the
bounds. -/
theorem adjustVariable_total (v : Nat) (a : Int) (mn mx : Nat) (ha : isSINT8 a)
    (h : mn ≤ mx) : ∃ r, adjustVariable v a mn mx = some r ∧ mn ≤ r ∧ r ≤ mx := by
  obtain ⟨ha₁, ha₂⟩ := ha
  rcases lt_trichotomy a (-30) with h₁ | h₁ | h₁
  · exact ⟨_, adjustVariable_neg v a mn mx ha₁ h₁, clampToRange_mem _ mn mx h⟩
  · exact ⟨_, adjustVariable_dead v a mn mx (by omega) (by omega), clampToRange_mem _ mn mx h⟩
  · by_cases h₂ : a ≤ 30
    · exact ⟨_, adjustVariable_dead v a mn mx (by omega) h₂, clampToRange_mem _ mn mx h⟩
    · exact ⟨_, adjustVariable_pos v a mn mx (by omega) ha₂, clampToRange_mem _ mn mx h⟩

/-! ## The claims about the parameter adjuster -/

/-- C1: for every 16-bit current value, every signed 8-bit sample and all 16-bit
bounds with `min ≤ max`, `adjustVariable` stores a value, and that value lies in
`[min, max]`. -/
theorem adjustVariable_result_in_range (v : Nat) (a : Int) (mn mx : Nat)
    (_hv : v < 65536) (ha₁ : -128 ≤ a) (ha₂ : a ≤ 127)
    (_hmn : mn < 65536) (_hmx : mx < 65536) (h : mn ≤ mx) :
    ∃ r, adjustVariable v a mn mx = some r ∧ mn ≤ r ∧ r ≤ mx :=
  adjustVariable_total v a mn mx ⟨ha₁, ha₂⟩ h

theorem adjustVariable_result_in_range_witness :
    (25600 < 65536 ∧ (-128 : Int) ≤ 60 ∧ (60 : Int) ≤ 127 ∧ 2560 < 65536 ∧ 51200 < 65536
      ∧ 2560 ≤ 51200)
    ∧ ∃ r, adjustVariable 25600 60 2560 51200 = some r ∧ 2560 ≤ r ∧ r ≤ 51200 :=
  ⟨by decide, adjustVariable_result_in_range 25600 60 2560 51200
    (by decide) (by decide) (by decide) (by decide) (by decide) (by decide)⟩

/-- C2: for every 16-bit current value and bounds and every sample with
`-30 ≤ axisSample ≤ 30`, `adjustVariable` stores `clampToRange current min max`;
in particular the variable is unchanged when it already lies in `[min, max]`. -/
theorem adjustVariable_dead_zone (v : Nat) (a : Int) (mn mx : Nat)
    (_hv : v < 65536) (_hmn : mn < 65536) (_hmx : mx < 65536)
    (h₁ : -30 ≤ a) (h₂ : a ≤ 30) :
    adjustVariable v a mn mx = some (clampToRange v mn mx)
    ∧ (mn ≤ v → v ≤ mx → adjustVariable v a mn mx = some v) := by
  refine ⟨adjustVariable_dead v a mn mx h₁ h₂, fun h₃ h₄ => ?_⟩
  rw [adjustVariable_dead v a mn mx h₁ h₂, clampToRange_of_mem v mn mx h₃ h₄]

theorem adjustVariable_dead_zone_witness :
    (12345 < 65536 ∧ 2560 < 65536 ∧ 51200 < 65536 ∧ (-30 : Int) ≤ -30 ∧ (-30 : Int) ≤ 30)
    ∧ adjustVariable 12345 (-30) 2560 51200 = some (clampToRange 12345 2560 51200)
    ∧ (2560 ≤ 12345 → 12345 ≤ 51200 → adjustVariable 12345 (-30) 2560 51200 = some 12345) :=
  ⟨by decide, adjustVariable_dead_zone 12345 (-30) 2560 51200
    (by decide) (by decide) (by decide) (by decide) (by decide)⟩

/-- C3 as stated fails: with current value `65535`, sample `31` and bounds
`[0, 65535]` the 16-bit sum wraps and `1` is stored, while the clamp of the
ordinary integer sum `65537` is `65535`. -/
theorem adjustVariable_positive_branch_counterexample :
    adjustVariable 65535 31 0 65535 = some 1
    ∧ clampInt (65535 + (31 - 30) * 2) 0 65535 = 65535 := by
  decide

/-- C3, amended: for every 16-bit current value, bounds `min ≤ max` and sample in
`31..127`, `adjustVariable` stores the clamp of the sum
`current + (axisSample - 30) * 2` taken modulo `65536`; whenever that sum is at
most `65535` this is the clamp of the ordinary integer sum, and then a sum above
`max` yields `max`.  With `25600`, sample `60` and bounds `[2560, 51200]` the
result is `25660`. -/
theorem adjustVariable_positive_branch (v : Nat) (a : Int) (mn mx : Nat)
    (_hv : v < 65536) (ha₁ : 31 ≤ a) (ha₂ : a ≤ 127)
    (_hmn : mn < 65536) (_hmx : mx < 65536) (_h : mn ≤ mx) :
    (∃ r, adjustVariable v a mn mx = some r
        ∧ (r : Int) = clampInt (((v : Int) + (a - 30) * 2) % 65536) mn mx)
    ∧ ((v : Int) + (a - 30) * 2 ≤ 65535 →
        ∃ r, adjustVariable v a mn mx = some r
          ∧ (r : Int) = clampInt ((v : Int) + (a - 30) * 2) mn mx
          ∧ ((mx : Int) < (v : Int) + (a - 30) * 2 → r = mx))
    ∧ adjustVariable 25600 60 2560 51200 = some 25660 := by
  refine ⟨⟨_, adjustVariable_pos v a mn mx (by omega) ha₂, ?_⟩, fun hs =>
    ⟨_, adjustVariable_pos v a mn mx (by omega) ha₂, ?_, ?_⟩, by decide⟩
  · unfold clampToRange clampInt
    split_ifs <;> omega
  · unfold clampToRange clampInt
    split_ifs <;> omega
  · unfold clampToRange
    split_ifs <;> omega

theorem adjustVariable_positive_branch_witness :
    (25600 < 65536 ∧ (31 : Int) ≤ 60 ∧ (60 : Int) ≤ 127 ∧ 2560 < 65536 ∧ 51200 < 65536
      ∧ 2560 ≤ 51200)
    ∧ (∃ r, adjustVariable 25600 60 2560 51200 = some r
        ∧ (r : Int) = clampInt ((((25600 : Nat) : Int) + (60 - 30) * 2) % 65536)
            ((2560 : Nat) : Int) ((51200 : Nat) : Int)) :=
  ⟨by decide, (adjustVariable_positive_branch 25600 60 2560 51200
    (by decide) (by decide) (by decide) (by decide) (by decide) (by decide)).1⟩

/-- C4 as stated fails: with current value `0`, sample `-31` and bounds
`[0, 65535]` the 16-bit difference wraps and `65534` is stored, while the clamp
of the ordinary integer difference `-2` is `0`. -/
theorem adjustVariable_negative_branch_counterexample :
    adjustVariable 0 (-31) 0 65535 = some 65534
    ∧ clampInt (0 - (magnitudeOf (-31) - 30) * 2) 0 65535 = 0 := by
  decide

/-- C4, amended: for every 16-bit current value, bounds `min ≤ max` and sample in
`-128..-31`, `adjustVariable` stores the clamp of the difference
`current - (magnitude - 30) * 2` taken modulo `65536`, with magnitude `127` for
`-128` and `-axisSample` otherwise; whenever `(magnitude - 30) * 2 ≤ current`
this is the clamp of the ordinary integer difference, and then a difference
below `min` yields `min`.  With `2560`, sample `-100` and bounds `[2560, 51200]`
the raw difference is `2420` and the result is `2560`. -/
theorem adjustVariable_negative_branch (v : Nat) (a : Int) (mn mx : Nat)
    (hv : v < 65536) (ha₁ : -128 ≤ a) (ha₂ : a ≤ -31)
    (_hmn : mn < 65536) (_hmx : mx < 65536) (h : mn ≤ mx) :
    (∃ r, adjustVariable v a mn mx = some r
        ∧ (r : Int) = clampInt (((v : Int) - (magnitudeOf a - 30) * 2) % 65536) mn mx)
    ∧ ((magnitudeOf a - 30) * 2 ≤ (v : Int) →
        ∃ r, adjustVariable v a mn mx = some r
          ∧ (r : Int) = clampInt ((v : Int) - (magnitudeOf a - 30) * 2) mn mx
          ∧ ((v : Int) - (magnitudeOf a - 30) * 2 < (mn : Int) → r = mn))
    ∧ ((2560 : Int) - (magnitudeOf (-100) - 30) * 2 = 2420
        ∧ adjustVariable 2560 (-100) 2560 51200 = some 2560) := by
  have hm : 31 ≤ magnitudeOf a ∧ magnitudeOf a ≤ 127 := by
    unfold magnitudeOf
    split_ifs <;> omega
  refine ⟨⟨_, adjustVariable_neg v a mn mx ha₁ (by omega), ?_⟩, fun hs =>
    ⟨_, adjustVariable_neg v a mn mx ha₁ (by omega), ?_, ?_⟩, by decide⟩
  · unfold clampToRange clampInt
    split_ifs <;> omega
  · unfold clampToRange clampInt
    split_ifs <;> omega
  · unfold clampToRange
    split_ifs <;> omega

theorem adjustVariable_negative_branch_witness :
    (2560 < 65536 ∧ (-128 : Int) ≤ -100 ∧ (-100 : Int) ≤ -31 ∧ 2560 < 65536 ∧ 51200 < 65536
      ∧ 2560 ≤ 51200)
    ∧ (∃ r, adjustVariable 2560 (-100) 2560 51200 = some r
        ∧ (r : Int) = clampInt ((((2560 : Nat) : Int) - (magnitudeOf (-100) - 30) * 2) % 65536)
            ((2560 : Nat) : Int) ((51200 : Nat) : Int)) :=
  ⟨by decide, (adjustVariable_negative_branch 2560 (-100) 2560 51200
    (by decide) (by decide) (by decide) (by decide) (by decide) (by decide)).1⟩

/-- C5 as stated fails: with current value `100` and bounds `[0, 65535]` the
sample `-100` makes the 16-bit difference wrap to `65496`, while the larger
sample `100` gives `240`. -/
theorem adjustVariable_monotone_counterexample :
    adjustVariable 100 (-100) 0 65535 = some 65496
    ∧ adjustVariable 100 100 0 65535 = some 240
    ∧ (-100 : Int) ≤ 100 ∧ ¬ ((65496 : Nat) ≤ 240) := by
  decide

/-- C5, amended: for every 16-bit current value and bounds `min ≤ max`, and every
two samples `a1 ≤ a2` in `[-128, 127]` outside the dead zone for which the update
of the variable does not wrap around in 16 bits (`noWrap`), the result of
`adjustVariable` with `a1` is at most the result with `a2`. -/
theorem adjustVariable_monotone (v : Nat) (a1 a2 : Int) (mn mx : Nat)
    (_hv : v < 65536) (_hmn : mn < 65536) (_hmx : mx < 65536) (h : mn ≤ mx)
    (h1 : isSINT8 a1) (h2 : isSINT8 a2) (h12 : a1 ≤ a2)
    (ho1 : 30 < |a1|) (ho2 : 30 < |a2|)
    (hw1 : noWrap v a1) (hw2 : noWrap v a2) :
    ∃ r1 r2, adjustVariable v a1 mn mx = some r1 ∧ adjustVariable v a2 mn mx = some r2
      ∧ r1 ≤ r2 := by
  obtain ⟨h1l, h1u⟩ := h1
  obtain ⟨h2l, h2u⟩ := h2
  obtain ⟨hw1p, hw1n⟩ := hw1
  obtain ⟨hw2p, hw2n⟩ := hw2
  have hm : ∀ a : Int, -128 ≤ a → a < -30 →
      31 ≤ magnitudeOf a ∧ magnitudeOf a ≤ 127 ∧ magnitudeOf a ≤ -a
        ∧ (a ≠ -128 → magnitudeOf a = -a) := by
    intro a _ _
    unfold magnitudeOf
    split_ifs <;> omega
  have hmono : ∀ b1 b2 : Int, -128 ≤ b1 → b1 ≤ b2 → b2 < -30 →
      magnitudeOf b2 ≤ magnitudeOf b1 := by
    intro b1 b2 _ _ _
    unfold magnitudeOf
    split_ifs <;> omega
  rcases lt_abs.mp ho1 with p1 | p1 <;> rcases lt_abs.mp ho2 with p2 | p2
  · -- both above the dead zone
    refine ⟨_, _, adjustVariable_pos v a1 mn mx p1 h1u, adjustVariable_pos v a2 mn mx p2 h2u,
      clampToRange_mono _ _ mn mx h ?_⟩
    have := hw1p p1
    have := hw2p p2
    omega
  · omega
  · -- `a1` below, `a2` above
    have p1 : a1 < -30 := by omega
    refine ⟨_, _, adjustVariable_neg v a1 mn mx h1l p1, adjustVariable_pos v a2 mn mx p2 h2u,
      clampToRange_mono _ _ mn mx h ?_⟩
    have := hw1n p1
    have := hw2p p2
    have := hm a1 h1l p1
    omega
  · -- both below the dead zone
    have p1 : a1 < -30 := by omega
    have p2 : a2 < -30 := by omega
    refine ⟨_, _, adjustVariable_neg v a1 mn mx h1l p1, adjustVariable_neg v a2 mn mx h2l p2,
      clampToRange_mono _ _ mn mx h ?_⟩
    have := hw1n p1
    have := hw2n p2
    have := hm a1 h1l p1
    have := hm a2 h2l p2
    have := hmono a1 a2 h1l h12 p2
    omega

theorem adjustVariable_monotone_witness :
    (25600 < 65536 ∧ 2560 < 65536 ∧ 51200 < 65536 ∧ 2560 ≤ 51200
      ∧ isSINT8 (-128) ∧ isSINT8 127 ∧ (-128 : Int) ≤ 127
      ∧ noWrap 25600 (-128) ∧ noWrap 25600 127)
    ∧ ∃ r1 r2, adjustVariable 25600 (-128) 2560 51200 = some r1
      ∧ adjustVariable 25600 127 2560 51200 = some r2 ∧ r1 ≤ r2 :=
  ⟨by decide, adjustVariable_monotone 25600 (-128) 127 2560 51200
    (by decide) (by decide) (by decide) (by decide) (by decide) (by decide) (by decide)
    (by norm_num) (by norm_num) (by decide) (by decide)⟩

/-- C6 as stated fails: with `v = 100`, sample `-128` and bounds `[2560, 51200]`
the 16-bit difference `100 - 194` wraps to `65442` and `51200` is stored, while
the clamp of the ordinary integer difference `-94` is `2560`. -/
theorem adjustVariable_min_sample_counterexample :
    adjustVariable 100 (-128) 2560 51200 = some 51200
    ∧ sub16 100 ((127 - 30) * 2) = 65442
    ∧ clampInt (100 - (127 - 30) * 2) 2560 51200 = 2560 := by
  decide

/-- C6, amended: for every 16-bit `v` and bounds, `adjustVariable` with sample
`-128` has a result although negating `-128` has none in the signed 8-bit type;
the sample is taken with magnitude `127`, so the result is the one for sample
`-127`, namely the clamp of `v` minus `(127 - 30) * 2 = 194` taken modulo
`65536` (the difference in `UINT16`), which is the clamp of the ordinary integer
difference whenever `194 ≤ v`. -/
theorem adjustVariable_min_sample (v mn mx : Nat)
    (hv : v < 65536) (_hmn : mn < 65536) (_hmx : mx < 65536) :
    negSINT8 (-128) = none
    ∧ magnitudeOf (-128) = 127
    ∧ (∃ r, adjustVariable v (-128) mn mx = some r)
    ∧ adjustVariable v (-128) mn mx = adjustVariable v (-127) mn mx
    ∧ adjustVariable v (-128) mn mx = some (clampToRange (sub16 v ((127 - 30) * 2)) mn mx)
    ∧ (194 ≤ v → adjustVariable v (-128) mn mx = some (clampToRange (v - 194) mn mx))
    ∧ (∃ r, adjustVariable v (-128) mn mx = some r
        ∧ (r : Int) = clampInt (((v : Int) - (127 - 30) * 2) % 65536) mn mx)
    ∧ (194 ≤ v → ∃ r, adjustVariable v (-128) mn mx = some r
        ∧ (r : Int) = clampInt ((v : Int) - (127 - 30) * 2) mn mx) := by
  have e1 := adjustVariable_neg v (-128) mn mx (by omega) (by omega)
  have e2 := adjustVariable_neg v (-127) mn mx (by omega) (by omega)
  have m1 : magnitudeOf (-128) = 127 := by decide
  have m2 : magnitudeOf (-127) = 127 := by decide
  have t : ((127 : Int) - 30).toNat = 97 := by decide
  rw [m1, t] at e1
  rw [m2, t] at e2
  refine ⟨by decide, m1, ⟨_, e1⟩, by rw [e1, e2], ?_, fun h => ?_, ⟨_, e1, ?_⟩,
    fun h => ⟨_, e1, ?_⟩⟩
  · rw [e1]
    rfl
  · have e3 : (v % 65536 + (65536 - 2 * 97)) % 65536 = v - 194 := by omega
    rw [e1, e3]
  · unfold clampToRange clampInt
    split_ifs <;> omega
  · unfold clampToRange clampInt
    split_ifs <;> omega

theorem adjustVariable_min_sample_witness :
    (25600 < 65536 ∧ 2560 < 65536 ∧ 51200 < 65536 ∧ 194 ≤ 25600)
    ∧ adjustVariable 25600 (-128) 2560 51200 = adjustVariable 25600 (-127) 2560 51200
    ∧ adjustVariable 25600 (-128) 2560 51200 = some (clampToRange (25600 - 194) 2560 51200)
    ∧ clampToRange (25600 - 194) 2560 51200 = 25406 :=
  ⟨by decide,
    (adjustVariable_min_sample 25600 2560 51200 (by decide) (by decide) (by decide)).2.2.2.1,
    (adjustVariable_min_sample 25600 2560 51200 (by decide) (by decide)
      (by decide)).2.2.2.2.2.1 (by decide),
    by decide⟩

/-! ## The box update -/

theorem toSINT8_of_le (w : Nat) (hw : w ≤ 127) : toSINT8 w = (w : Int) := by
  unfold toSINT8
  have h : w % 256 = w := by omega
  rw [h, if_pos (by omega)]

theorem negSINT8_of_le (w : Nat) (hw : w ≤ 127) : negSINT8 (w : Int) = some (-(w : Int)) := by
  unfold negSINT8
  rw [if_pos]
  omega

theorem negSINT8_defaultWidth :
    negSINT8 (toSINT8 DEFAULT_WIDTH) = some (-(toSINT8 DEFAULT_WIDTH)) := by
  decide

theorem writeAt_of_lt (xs : List Int) (i : Nat) (x : Int) (h : i < xs.length) :
    writeAt xs i x = some (xs.set i x) := by
  unfold writeAt
  rw [if_pos h]

/-- The box update in closed form, for a half-width that fits in `SINT8` and an
array that holds all five written entries. -/
theorem updateBox_eq (b : List Int) (w : Nat) (hb : 17 ≤ b.length) (hw : w ≤ 127) :
    updateBox b w
      = some (((((b.set 2 (-(w : Int))).set 6 w).set 8 w).set 14 (-(w : Int))).set 16
          (-(w : Int))) := by
  unfold updateBox
  rw [toSINT8_of_le w hw, negSINT8_of_le w hw]
  simp only [Option.some_bind]
  rw [writeAt_of_lt _ _ _ (by omega)]
  simp only [Option.some_bind]
  rw [writeAt_of_lt _ _ _ (by simp only [List.length_set]; omega)]
  simp only [Option.some_bind]
  rw [writeAt_of_lt _ _ _ (by simp only [List.length_set]; omega)]
  simp only [Option.some_bind]
  rw [writeAt_of_lt _ _ _ (by simp only [List.length_set]; omega)]
  simp only [Option.some_bind]
  rw [writeAt_of_lt _ _ _ (by simp only [List.length_set]; omega)]

/-- Two successive box updates write what the second one writes. -/
theorem set5_set5 (b : List Int) (a c d e f a' c' d' e' f' : Int) :
    ((((((((((b.set 2 a).set 6 c).set 8 d).set 14 e).set 16 f).set 2 a').set 6 c').set 8 d').set
        14 e').set 16 f')
      = ((((b.set 2 a').set 6 c').set 8 d').set 14 e').set 16 f' := by
  apply List.ext_getElem?
  intro n
  simp only [List.getElem?_set, List.length_set]
  split_ifs <;> rfl

/-- C7: for every 19-entry vector list `b` and every `w` in `0..127`, the box
update of `main` has a result in which entries 2, 6, 8, 14, 16 are
`-w, w, w, -w, -w` and every other entry is the one of `b` (in particular the
count at index 0 and the entries 3, 9, 11, 17 that hold the vertical extent);
the five written indices lie inside the list and are second components of
pairs. -/
theorem updateBox_consistent (b : List Int) (w : Nat) (hb : b.length = 19) (hw : w ≤ 127) :
    (∀ i ∈ boxWriteIndices, i < b.length ∧ ∃ k, i = 2 * k + 2)
    ∧ ∃ b1, updateBox b w = some b1 ∧ b1.length = 19
      ∧ b1[2]? = some (-(w : Int)) ∧ b1[6]? = some (w : Int) ∧ b1[8]? = some (w : Int)
      ∧ b1[14]? = some (-(w : Int)) ∧ b1[16]? = some (-(w : Int))
      ∧ (∀ i, i ∉ boxWriteIndices → b1[i]? = b[i]?)
      ∧ b1[0]? = b[0]? ∧ b1[3]? = b[3]? ∧ b1[9]? = b[9]? ∧ b1[11]? = b[11]?
      ∧ b1[17]? = b[17]? := by
  refine ⟨?_, _, updateBox_eq b w (by omega) hw, ?_⟩
  · intro i hi
    simp only [boxWriteIndices, List.mem_cons, List.mem_singleton, List.not_mem_nil,
      or_false] at hi
    rcases hi with rfl | rfl | rfl | rfl | rfl
    · exact ⟨by omega, 0, rfl⟩
    · exact ⟨by omega, 2, rfl⟩
    · exact ⟨by omega, 3, rfl⟩
    · exact ⟨by omega, 6, rfl⟩
    · exact ⟨by omega, 7, rfl⟩
  · refine ⟨by simp [hb], ?_, ?_, ?_, ?_, ?_, ?_, ?_, ?_, ?_, ?_, ?_⟩
    any_goals (simp [List.getElem?_set, hb])
    intro i hi
    simp only [boxWriteIndices, List.mem_cons, List.mem_singleton, List.not_mem_nil,
      or_false, not_or] at hi
    obtain ⟨h2, h6, h8, h14, h16⟩ := hi
    split_ifs <;> first | rfl | omega

theorem updateBox_consistent_witness :
    (initialVectorList.length = 19 ∧ 100 ≤ 127)
    ∧ ∃ b1, updateBox initialVectorList 100 = some b1
      ∧ b1[2]? = some (-((100 : Nat) : Int)) ∧ b1[17]? = initialVectorList[17]? := by
  obtain ⟨_, b1, h1, _, h2, _, _, _, _, _, _, _, _, _, h17⟩ :=
    updateBox_consistent initialVectorList 100 (by decide) (by decide)
  exact ⟨by decide, b1, h1, h2, h17⟩

/-- C8: the box update is last-write-wins: for every vector list `b` that holds
the written entries and all `w1, w2` in `0..127`, updating with `w1` and then
with `w2` gives exactly the list obtained by updating `b` with `w2` alone; so
updating twice with the same half-width changes nothing the second time, and
updating with `50` then `20` leaves the five width entries at
`-20, 20, 20, -20, -20`. -/
theorem updateBox_last_write_wins (b : List Int) (w1 w2 : Nat) (hb : 17 ≤ b.length)
    (h1 : w1 ≤ 127) (h2 : w2 ≤ 127) :
    (∃ b1 b2, updateBox b w1 = some b1 ∧ updateBox b1 w2 = some b2
        ∧ updateBox b w2 = some b2)
    ∧ (∃ b1, updateBox b w1 = some b1 ∧ updateBox b1 w1 = some b1)
    ∧ (∃ b1 b2, updateBox b 50 = some b1 ∧ updateBox b1 20 = some b2
        ∧ b2[2]? = some (-20) ∧ b2[6]? = some 20 ∧ b2[8]? = some 20
        ∧ b2[14]? = some (-20) ∧ b2[16]? = some (-20)) := by
  have key : ∀ u1 u2 : Nat, u1 ≤ 127 → u2 ≤ 127 →
      ∃ b1 b2, updateBox b u1 = some b1 ∧ updateBox b1 u2 = some b2
        ∧ updateBox b u2 = some b2 := by
    intro u1 u2 hu1 hu2
    refine ⟨_, _, updateBox_eq b u1 hb hu1, ?_, updateBox_eq b u2 hb hu2⟩
    rw [updateBox_eq _ u2 (by simp only [List.length_set]; omega) hu2, set5_set5]
  refine ⟨key w1 w2 h1 h2, ?_, ?_⟩
  · obtain ⟨b1, b2, e1, e2, e3⟩ := key w1 w1 h1 h1
    have e : b1 = b2 := Option.some.inj (e1.symm.trans e3)
    exact ⟨b1, e1, by rw [e2, e]⟩
  · obtain ⟨b1, b2, e1, e2, e3⟩ := key 50 20 (by omega) (by omega)
    refine ⟨b1, b2, e1, e2, ?_⟩
    have e4 := updateBox_eq b 20 hb (by omega)
    have e : b2 = _ := Option.some.inj (e3.symm.trans e4)
    subst e
    simp [List.getElem?_set]
    omega

theorem updateBox_last_write_wins_witness :
    (17 ≤ initialVectorList.length ∧ 50 ≤ 127 ∧ 20 ≤ 127)
    ∧ ∃ b1 b2, updateBox initialVectorList 50 = some b1 ∧ updateBox b1 20 = some b2
        ∧ updateBox initialVectorList 20 = some b2 :=
  ⟨by decide, (updateBox_last_write_wins initialVectorList 50 20
    (by decide) (by decide) (by decide)).1⟩

/-- The box of `main` after an update with half-width `w`. -/
theorem updateBox_initial (w : Nat) (hw : w ≤ 127) :
    updateBox initialVectorList w
      = some [8, 0, -(w : Int), -127, 0, 0, w, 0, w, 127, 0, 127, 0, 0, -(w : Int), 0,
          -(w : Int), -127, 0] := by
  rw [updateBox_eq _ w (by decide) hw]
  simp [initialVectorList]

/-- C9: the vector list of `main`, updated with any `w` in `0..127` and read as a
count byte followed by `(dy, dx)` pairs (a move from the origin, then 8 drawn
segments): every drawn segment has a zero component, the drawn segments sum to
`(0, 0)` so that the pen ends on the first vertex `(0, -w)`, every visited
position has `|y| ≤ 127` and `|x| ≤ w`, and the four corners `(±127, ±w)` are
visited. -/
theorem box_closed_rectangle (w : Nat) (hw : w ≤ 127) :
    ∃ vl move segs, updateBox initialVectorList w = some vl
      ∧ vl.head? = some 8
      ∧ vectorPairs vl.tail = move :: segs
      ∧ segs.length = 8
      ∧ (∀ d ∈ segs, d.1 = 0 ∨ d.2 = 0)
      ∧ (segs.map Prod.fst).sum = 0 ∧ (segs.map Prod.snd).sum = 0
      ∧ (penPath (0, 0) (move :: segs)).tail = penPath (0, -(w : Int)) segs
      ∧ (penPath (0, -(w : Int)) segs).getLast? = some (0, -(w : Int))
      ∧ (∀ p ∈ penPath (0, -(w : Int)) segs, |p.1| ≤ 127 ∧ |p.2| ≤ (w : Int))
      ∧ ((127 : Int), (w : Int)) ∈ penPath (0, -(w : Int)) segs
      ∧ ((127 : Int), -(w : Int)) ∈ penPath (0, -(w : Int)) segs
      ∧ ((-127 : Int), (w : Int)) ∈ penPath (0, -(w : Int)) segs
      ∧ ((-127 : Int), -(w : Int)) ∈ penPath (0, -(w : Int)) segs := by
  refine ⟨_, (0, -(w : Int)),
    [(-127, 0), (0, w), (0, w), (127, 0), (127, 0), (0, -(w : Int)), (0, -(w : Int)), (-127, 0)],
    updateBox_initial w hw, rfl, ?_, rfl, ?_, ?_, ?_, ?_, ?_, ?_, ?_, ?_, ?_, ?_⟩
  · simp [vectorPairs]
  · simp
  · simp
  · simp
  · simp [penPath]
  · simp [penPath]
  · simp [penPath, abs_le]
  · simp [penPath]
  · simp [penPath]
  · simp [penPath]
  · simp [penPath]

theorem box_closed_rectangle_witness :
    (80 ≤ 127)
    ∧ ∃ vl move segs, updateBox initialVectorList 80 = some vl
      ∧ vl.head? = some 8
      ∧ vectorPairs vl.tail = move :: segs
      ∧ segs.length = 8 := by
  obtain ⟨vl, move, segs, h1, h2, h3, h4, _⟩ := box_closed_rectangle 80 (by decide)
  exact ⟨by decide, vl, move, segs, h1, h2, h3, h4⟩

/-! ## The frame loop -/

theorem bounds_eq :
    MIN_SCALE_16 = 2560 ∧ MAX_SCALE_16 = 51200 ∧ MIN_WIDTH_16 = 2560 ∧ MAX_WIDTH_16 = 32512 := by
  decide

theorem initialState_eq :
    initialState.scale16 = 25600 ∧ initialState.width16 = 20480
      ∧ initialState.vectorList.length = 19 := by
  decide

theorem getHighOrderByte_eq (v : Nat) : getHighOrderByte v = v / 256 % 256 := by
  simp only [getHighOrderByte, toUINT8, shr1]
  omega

/-- One iteration of the loop has a result and keeps the ranges. -/
theorem frame_inv (s : FrameState) (joyY joyX : Int) (hs : frameInv s)
    (hy : isSINT8 joyY) (hx : isSINT8 joyX) :
    ∃ s1, frame s joyY joyX = some s1 ∧ frameInv s1 := by
  obtain ⟨_, _, _, _, hl⟩ := hs
  obtain ⟨e1, e2, e3, e4⟩ := bounds_eq
  obtain ⟨r1, hr1, l1, u1⟩ :=
    adjustVariable_total s.scale16 joyY MIN_SCALE_16 MAX_SCALE_16 hy (by rw [e1, e2]; omega)
  obtain ⟨r2, hr2, l2, u2⟩ :=
    adjustVariable_total s.width16 joyX MIN_WIDTH_16 MAX_WIDTH_16 hx (by rw [e3, e4]; omega)
  rw [e1] at l1
  rw [e2] at u1
  rw [e3] at l2
  rw [e4] at u2
  have hw : getHighOrderByte r2 ≤ 127 := by
    rw [getHighOrderByte_eq]
    omega
  have hb := updateBox_eq s.vectorList (getHighOrderByte r2) (by omega) hw
  have hf : frame s joyY joyX = some
      { scale16 := r1, width16 := r2,
        vectorList := ((((s.vectorList.set 2 (-(getHighOrderByte r2 : Int))).set 6
          (getHighOrderByte r2 : Int)).set 8 (getHighOrderByte r2 : Int)).set 14
          (-(getHighOrderByte r2 : Int))).set 16 (-(getHighOrderByte r2 : Int)) } := by
    unfold frame
    rw [hr1, Option.some_bind, hr2, Option.some_bind, hb, Option.some_bind]
  refine ⟨_, hf, l1, u1, l2, u2, ?_⟩
  simp only [List.length_set]
  exact hl

/-- Any finite run of the loop from a state inside the ranges has a result, and
it is inside the ranges. -/
theorem runFrames_inv (samples : List (Int × Int)) :
    ∀ s : FrameState, frameInv s → (∀ p ∈ samples, isSINT8 p.1 ∧ isSINT8 p.2) →
      ∃ s1, runFrames s samples = some s1 ∧ frameInv s1 := by
  induction samples with
  | nil =>
    intro s hs _
    exact ⟨s, rfl, hs⟩
  | cons p rest ih =>
    intro s hs hp
    obtain ⟨joyY, joyX⟩ := p
    have h0 := hp (joyY, joyX) (List.mem_cons_self _ _)
    obtain ⟨s1, hf, hs1⟩ := frame_inv s joyY joyX hs h0.1 h0.2
    obtain ⟨s2, hr, hs2⟩ := ih s1 hs1 (fun q hq => hp q (List.mem_cons_of_mem _ hq))
    refine ⟨s2, ?_, hs2⟩
    simp only [runFrames, hf, Option.some_bind, hr]

/-- C10: starting from `scale16 = 100 * 256` and `width16 = 80 * 256`, after any
number of loop iterations with arbitrary signed 8-bit samples on both axes the
loop has reached a state with `scale16` in `[2560, 51200]` and `width16` in
`[2560, 32512]`; the truncated scale is in `[10, 200]` and the truncated width
in `[10, 127]`. -/
theorem runFrames_range (samples : List (Int × Int))
    (h : ∀ p ∈ samples, isSINT8 p.1 ∧ isSINT8 p.2) :
    initialState.scale16 = 100 * 256 ∧ initialState.width16 = 80 * 256
    ∧ ∃ s, runFrames initialState samples = some s
      ∧ 2560 ≤ s.scale16 ∧ s.scale16 ≤ 51200
      ∧ 2560 ≤ s.width16 ∧ s.width16 ≤ 32512
      ∧ 10 ≤ getHighOrderByte s.scale16 ∧ getHighOrderByte s.scale16 ≤ 200
      ∧ 10 ≤ getHighOrderByte s.width16 ∧ getHighOrderByte s.width16 ≤ 127 := by
  obtain ⟨i1, i2, i3⟩ := initialState_eq
  have hi : frameInv initialState := ⟨by omega, by omega, by omega, by omega, i3⟩
  obtain ⟨s, hr, a1, a2, a3, a4, _⟩ := runFrames_inv samples initialState hi h
  refine ⟨i1, i2, s, hr, a1, a2, a3, a4, ?_, ?_, ?_, ?_⟩ <;>
    (rw [getHighOrderByte_eq]; omega)

theorem runFrames_range_witness :
    (∀ p ∈ [((127 : Int), (-128 : Int)), (-128, 127), (0, 31)], isSINT8 p.1 ∧ isSINT8 p.2)
    ∧ ∃ s, runFrames initialState [((127 : Int), (-128 : Int)), (-128, 127), (0, 31)] = some s
      ∧ 2560 ≤ s.scale16 ∧ s.scale16 ≤ 51200
      ∧ 2560 ≤ s.width16 ∧ s.width16 ≤ 32512
      ∧ 10 ≤ getHighOrderByte s.scale16 ∧ getHighOrderByte s.scale16 ≤ 200
      ∧ 10 ≤ getHighOrderByte s.width16 ∧ getHighOrderByte s.width16 ≤ 127 :=
  ⟨by decide, (runFrames_range [((127 : Int), (-128 : Int)), (-128, 127), (0, 31)]
    (by decide)).2.2⟩

/-! ## The fixed-point conversions -/

/-- C14: for every `x` in `0..255`, `toHighOrderByte x` is `256 * x`, fits in 16
bits, and `getHighOrderByte` gives `x` back; for every 16-bit `v`,
`getHighOrderByte v` is `v / 256` rounded down, so truncation drops exactly the
low byte `v % 256`. -/
theorem highOrderByte_round_trip (x v : Nat) (hx : x ≤ 255) (hv : v < 65536) :
    toHighOrderByte (x : Int) = 256 * x
    ∧ toHighOrderByte (x : Int) < 65536
    ∧ getHighOrderByte (toHighOrderByte (x : Int)) = x
    ∧ getHighOrderByte v = v / 256
    ∧ v = 256 * getHighOrderByte v + v % 256 := by
  have e : toHighOrderByte (x : Int) = 256 * x := by
    simp only [toHighOrderByte, shl1, toUINT16]
    omega
  refine ⟨e, by omega, ?_, ?_, ?_⟩
  · rw [e, getHighOrderByte_eq]
    omega
  · rw [getHighOrderByte_eq]
    omega
  · rw [getHighOrderByte_eq]
    omega

theorem highOrderByte_round_trip_witness :
    (200 ≤ 255 ∧ 51263 < 65536)
    ∧ toHighOrderByte ((200 : Nat) : Int) = 256 * 200
    ∧ toHighOrderByte ((200 : Nat) : Int) < 65536
    ∧ getHighOrderByte (toHighOrderByte ((200 : Nat) : Int)) = 200
    ∧ getHighOrderByte 51263 = 51263 / 256
    ∧ 51263 = 256 * getHighOrderByte 51263 + 51263 % 256 :=
  ⟨by decide, highOrderByte_round_trip 200 51263 (by decide) (by decide)⟩

/-! ## The adjuster on the domain of the frame loop -/

theorem axisDelta_bounds (a : Int) (ha : isSINT8 a) :
    -194 ≤ axisDelta a ∧ axisDelta a ≤ 194 := by
  obtain ⟨h₁, h₂⟩ := ha
  unfold axisDelta magnitudeOf
  split_ifs <;> omega

/-- When the exact update stays inside `UINT16`, `adjustVariable` stores the clamp
of the exact update. -/
theorem adjustVariable_exact (v : Nat) (a : Int) (mn mx : Nat) (ha : isSINT8 a)
    (h₀ : 0 ≤ (v : Int) + axisDelta a) (h₁ : (v : Int) + axisDelta a ≤ 65535) :
    adjustVariable v a mn mx = some (clampToRange ((v : Int) + axisDelta a).toNat mn mx) := by
  obtain ⟨ha₁, ha₂⟩ := ha
  by_cases hp : 30 < a
  · have hd : axisDelta a = 2 * (a - 30) := by
      unfold axisDelta
      rw [if_pos hp]
    rw [hd] at h₀ h₁ ⊢
    rw [adjustVariable_pos v a mn mx hp ha₂]
    have e : (v + 2 * (a - 30).toNat) % 65536 = ((v : Int) + 2 * (a - 30)).toNat := by omega
    rw [e]
  · by_cases hn : a < -30
    · have hm : 31 ≤ magnitudeOf a ∧ magnitudeOf a ≤ 127 := by
        unfold magnitudeOf
        split_ifs <;> omega
      have hd : axisDelta a = -(2 * (magnitudeOf a - 30)) := by
        unfold axisDelta
        rw [if_neg hp, if_pos hn]
      rw [hd] at h₀ h₁ ⊢
      rw [adjustVariable_neg v a mn mx ha₁ hn]
      have e : (v % 65536 + (65536 - 2 * (magnitudeOf a - 30).toNat)) % 65536
          = ((v : Int) + -(2 * (magnitudeOf a - 30))).toNat := by omega
      rw [e]
    · have hd : axisDelta a = 0 := by
        unfold axisDelta
        rw [if_neg hp, if_neg hn]
      rw [hd]
      rw [adjustVariable_dead v a mn mx (by omega) (by omega)]
      simp

/-- C15: for each of the two bound pairs of `main`, `(2560, 51200)` and
`(2560, 32512)`, every `v` with `min ≤ v ≤ max` and every signed 8-bit sample,
the 16-bit addition or subtraction of `adjustVariable` gives the exact integer
`v + d` (which lies in `0..65535`), and the stored result is the exact-integer
clamp of `v + d` to `[min, max]`, with `d = axisDelta a`. -/
theorem adjustVariable_no_wrap (v : Nat) (a : Int) (mn mx : Nat)
    (hb : (mn = MIN_SCALE_16 ∧ mx = MAX_SCALE_16) ∨ (mn = MIN_WIDTH_16 ∧ mx = MAX_WIDTH_16))
    (h₁ : mn ≤ v) (h₂ : v ≤ mx) (ha : isSINT8 a) :
    ((MIN_SCALE_16 = 2560 ∧ MAX_SCALE_16 = 51200)
      ∧ (MIN_WIDTH_16 = 2560 ∧ MAX_WIDTH_16 = 32512))
    ∧ (0 ≤ (v : Int) + axisDelta a ∧ (v : Int) + axisDelta a ≤ 65535)
    ∧ (30 < a →
        ((add16 v (shl1 (sub16 (toUINT16 a) (toUINT16 JOY_DEAD_ZONE))) : Nat) : Int)
          = (v : Int) + 2 * (a - 30))
    ∧ (a < -30 →
        ((sub16 v (shl1 (sub16 (toUINT16 (magnitudeOf a)) (toUINT16 JOY_DEAD_ZONE))) : Nat) : Int)
          = (v : Int) - 2 * (magnitudeOf a - 30))
    ∧ ∃ r, adjustVariable v a mn mx = some r
        ∧ (r : Int) = clampInt ((v : Int) + axisDelta a) mn mx := by
  obtain ⟨e1, e2, e3, e4⟩ := bounds_eq
  have hd := axisDelta_bounds a ha
  have hv : 2560 ≤ v ∧ v ≤ 51200 := by
    rcases hb with ⟨rfl, rfl⟩ | ⟨rfl, rfl⟩ <;> omega
  have h₀ : 0 ≤ (v : Int) + axisDelta a := by omega
  have h₃ : (v : Int) + axisDelta a ≤ 65535 := by omega
  refine ⟨⟨⟨e1, e2⟩, e3, e4⟩, ⟨h₀, h₃⟩, ?_, ?_, _, adjustVariable_exact v a mn mx ha h₀ h₃, ?_⟩
  · intro hp
    have := ha.2
    simp only [add16, shl1, sub16, toUINT16, JOY_DEAD_ZONE]
    omega
  · intro hn
    have := ha.1
    have hm : 31 ≤ magnitudeOf a ∧ magnitudeOf a ≤ 127 := by
      unfold magnitudeOf
      split_ifs <;> omega
    simp only [sub16, shl1, toUINT16, JOY_DEAD_ZONE]
    omega
  · unfold clampToRange clampInt
    split_ifs <;> omega

theorem adjustVariable_no_wrap_witness :
    ((2560 = MIN_SCALE_16 ∧ 32512 = MAX_SCALE_16)
        ∨ (2560 = MIN_WIDTH_16 ∧ 32512 = MAX_WIDTH_16))
    ∧ 2560 ≤ 32512 ∧ 32512 ≤ 32512 ∧ isSINT8 127
    ∧ ∃ r, adjustVariable 32512 127 2560 32512 = some r
        ∧ (r : Int) = clampInt (((32512 : Nat) : Int) + axisDelta 127)
            ((2560 : Nat) : Int) ((32512 : Nat) : Int) :=
  ⟨by decide, by decide, by decide, by decide,
    (adjustVariable_no_wrap 32512 127 2560 32512 (by decide) (by decide) (by decide)
      (by decide)).2.2.2.2⟩

/-- C16: for all 16-bit bounds `min ≤ max`, every `v` with `min ≤ v ≤ max` and
`194 ≤ v ≤ 65535 - 194`, and every signed 8-bit sample, the result `r` of
`adjustVariable` has `|r - v| ≤ 194`, and the high bytes of `r` and `v` differ
by at most `1`. -/
theorem adjustVariable_step_bound (v : Nat) (a : Int) (mn mx : Nat)
    (_hmn : mn < 65536) (_hmx : mx < 65536) (_h : mn ≤ mx)
    (h₁ : mn ≤ v) (h₂ : v ≤ mx) (h₃ : 194 ≤ v) (h₄ : v ≤ 65535 - 194) (ha : isSINT8 a) :
    ∃ r, adjustVariable v a mn mx = some r
      ∧ |(r : Int) - (v : Int)| ≤ 194
      ∧ |(getHighOrderByte r : Int) - (getHighOrderByte v : Int)| ≤ 1 := by
  have hd := axisDelta_bounds a ha
  have h₀ : 0 ≤ (v : Int) + axisDelta a := by omega
  have h₅ : (v : Int) + axisDelta a ≤ 65535 := by omega
  refine ⟨_, adjustVariable_exact v a mn mx ha h₀ h₅, ?_, ?_⟩
  · rw [abs_le]
    unfold clampToRange
    split_ifs <;> omega
  · rw [abs_le, getHighOrderByte_eq, getHighOrderByte_eq]
    unfold clampToRange
    split_ifs <;> omega

theorem adjustVariable_step_bound_witness :
    (2560 < 65536 ∧ 51200 < 65536 ∧ 2560 ≤ 51200 ∧ 2560 ≤ 25600 ∧ 25600 ≤ 51200
      ∧ 194 ≤ 25600 ∧ 25600 ≤ 65535 - 194 ∧ isSINT8 (-128))
    ∧ ∃ r, adjustVariable 25600 (-128) 2560 51200 = some r
      ∧ |(r : Int) - ((25600 : Nat) : Int)| ≤ 194
      ∧ |(getHighOrderByte r : Int) - (getHighOrderByte 25600 : Int)| ≤ 1 :=
  ⟨by decide, adjustVariable_step_bound 25600 (-128) 2560 51200
    (by decide) (by decide) (by decide) (by decide) (by decide) (by decide) (by decide)
    (by decide)⟩

/-- C17: for every `a` in `31..127` and 16-bit `v`, `min`, `max`: when `min ≤ v`
and `v + 2 * (a - 30) ≤ max ≤ 65535`, `adjustVariable` with sample `a` and then
with sample `-a` returns `v`; and when `min ≤ v - 2 * (a - 30)` and
`v ≤ max ≤ 65535`, sample `-a` and then sample `a` returns `v`. -/
theorem adjustVariable_opposite_tilts (v : Nat) (a : Int) (mn mx : Nat)
    (_hv : v < 65536) (_hmn : mn < 65536) (hmx : mx ≤ 65535) (ha₁ : 31 ≤ a) (ha₂ : a ≤ 127) :
    (mn ≤ v → (v : Int) + 2 * (a - 30) ≤ mx →
      ∃ r, adjustVariable v a mn mx = some r ∧ adjustVariable r (-a) mn mx = some v)
    ∧ ((mn : Int) ≤ (v : Int) - 2 * (a - 30) → v ≤ mx →
      ∃ r, adjustVariable v (-a) mn mx = some r ∧ adjustVariable r a mn mx = some v) := by
  have hm : magnitudeOf (-a) = a := by
    unfold magnitudeOf
    rw [if_neg (by omega)]
    omega
  constructor
  · intro h₁ h₂
    refine ⟨_, adjustVariable_pos v a mn mx (by omega) ha₂, ?_⟩
    rw [adjustVariable_neg _ (-a) mn mx (by omega) (by omega), hm]
    congr 1
    unfold clampToRange
    split_ifs <;> omega
  · intro h₁ h₂
    refine ⟨_, adjustVariable_neg v (-a) mn mx (by omega) (by omega), ?_⟩
    rw [adjustVariable_pos _ a mn mx (by omega) ha₂, hm]
    congr 1
    unfold clampToRange
    split_ifs <;> omega

theorem adjustVariable_opposite_tilts_witness :
    (25600 < 65536 ∧ 2560 < 65536 ∧ 51200 ≤ 65535 ∧ (31 : Int) ≤ 100 ∧ (100 : Int) ≤ 127
      ∧ 2560 ≤ 25600 ∧ ((25600 : Nat) : Int) + 2 * (100 - 30) ≤ ((51200 : Nat) : Int)
      ∧ ((2560 : Nat) : Int) ≤ ((25600 : Nat) : Int) - 2 * (100 - 30) ∧ 25600 ≤ 51200)
    ∧ (∃ r, adjustVariable 25600 100 2560 51200 = some r
        ∧ adjustVariable r (-100) 2560 51200 = some 25600)
    ∧ (∃ r, adjustVariable 25600 (-100) 2560 51200 = some r
        ∧ adjustVariable r 100 2560 51200 = some 25600) :=
  ⟨by decide,
    (adjustVariable_opposite_tilts 25600 100 2560 51200
      (by decide) (by decide) (by decide) (by decide) (by decide)).1 (by decide) (by decide),
    (adjustVariable_opposite_tilts 25600 100 2560 51200
      (by decide) (by decide) (by decide) (by decide) (by decide)).2 (by decide) (by decide)⟩

/-! ## The string conversion -/

theorem writeByteAt_of_lt (str : List Nat) (i x : Nat) (h : i < str.length) :
    writeByteAt str i x = some (str.set i x) := by
  unfold writeByteAt
  rw [if_pos h]

/-- The loop of `numToString` entered with `strPos = 2`: four tests of the
condition suffice, and the three digits are written from the right. -/
theorem numToStringLoop_eq (fuel : Nat) (str : List Nat) (num : Nat)
    (hs : 4 ≤ str.length) (hn : num ≤ 255) :
    numToStringLoop (fuel + 4) str num 2
      = some (((str.set 2 (48 + num % 10)).set 1 (48 + num / 10 % 10)).set 0
          (48 + num / 100)) := by
  have d2 : toUINT8 (toUINT8 (num % 10) + 48) = 48 + num % 10 := by
    simp only [toUINT8]
    omega
  have d1 : toUINT8 (toUINT8 (toUINT8 (num / 10) % 10) + 48) = 48 + num / 10 % 10 := by
    simp only [toUINT8]
    omega
  have d0 : toUINT8 (toUINT8 (toUINT8 (toUINT8 (num / 10) / 10) % 10) + 48)
      = 48 + num / 100 := by
    simp only [toUINT8]
    omega
  have c2 : decSINT8 2 = some 1 := by decide
  have c1 : decSINT8 1 = some 0 := by decide
  have c0 : decSINT8 0 = some (-1) := by decide
  have t2 : (2 : Int).toNat = 2 := by decide
  have t1 : (1 : Int).toNat = 1 := by decide
  have t0 : (0 : Int).toNat = 0 := by decide
  rw [show fuel + 4 = (fuel + 3) + 1 from rfl, numToStringLoop, if_pos (by decide), t2, d2,
    writeByteAt_of_lt _ _ _ (by omega), Option.some_bind, c2, Option.some_bind]
  rw [show fuel + 3 = (fuel + 2) + 1 from rfl, numToStringLoop, if_pos (by decide), t1, d1,
    writeByteAt_of_lt _ _ _ (by simp only [List.length_set]; omega), Option.some_bind, c1,
    Option.some_bind]
  rw [show fuel + 2 = (fuel + 1) + 1 from rfl, numToStringLoop, if_pos (by decide), t0, d0,
    writeByteAt_of_lt _ _ _ (by simp only [List.length_set]; omega), Option.some_bind, c0,
    Option.some_bind]
  rw [numToStringLoop, if_neg (by decide)]

/-- C11: for every `num` in `0..255` and every array of at least four entries,
`numToString` returns (four tests of the loop condition suffice) with
`str[0], str[1], str[2]` the ASCII digits of the hundreds, tens and ones of
`num`, each in `'0'..'9'`, with `str[3] = 0x80`, and with every other entry
unchanged; the three digits decode back to `num`. -/
theorem numToString_digits (fuel : Nat) (str : List Nat) (num : Nat)
    (hf : 4 ≤ fuel) (hs : 4 ≤ str.length) (hn : num ≤ 255) :
    ∃ out d0 d1 d2, numToString fuel str num = some out
      ∧ out.length = str.length
      ∧ out[0]? = some (48 + d0) ∧ out[1]? = some (48 + d1) ∧ out[2]? = some (48 + d2)
      ∧ out[3]? = some 0x80
      ∧ (∀ i, 4 ≤ i → out[i]? = str[i]?)
      ∧ d0 = num / 100 ∧ d1 = num / 10 % 10 ∧ d2 = num % 10
      ∧ d0 ≤ 9 ∧ d1 ≤ 9 ∧ d2 ≤ 9
      ∧ 100 * d0 + 10 * d1 + d2 = num := by
  obtain ⟨k, rfl⟩ : ∃ k, fuel = k + 4 := ⟨fuel - 4, by omega⟩
  have e0 : toSINT8 (toUINT8 (numDigits - 1)) = 2 := by decide
  have e : numToString (k + 4) str num
      = some ((((str.set 2 (48 + num % 10)).set 1 (48 + num / 10 % 10)).set 0
          (48 + num / 100)).set 3 0x80) := by
    unfold numToString
    rw [e0, numToStringLoop_eq k str num hs hn, Option.some_bind,
      writeByteAt_of_lt _ _ _ (by simp only [List.length_set, numDigits]; omega)]
    rfl
  refine ⟨_, num / 100, num / 10 % 10, num % 10, e, by simp, ?_, ?_, ?_, ?_, ?_, rfl, rfl, rfl,
    by omega, by omega, by omega, by omega⟩
  · simp [List.getElem?_set]
    rintro rfl
    simp at hs
  · simp [List.getElem?_set]
    omega
  · simp [List.getElem?_set]
    omega
  · simp [List.getElem?_set]
    omega
  · intro i hi
    rw [List.getElem?_set_ne (by omega), List.getElem?_set_ne (by omega),
      List.getElem?_set_ne (by omega), List.getElem?_set_ne (by omega)]

theorem numToString_digits_witness :
    (4 ≤ 4 ∧ 4 ≤ [0, 0, 0, 0].length ∧ 207 ≤ 255)
    ∧ ∃ out d0 d1 d2, numToString 4 [0, 0, 0, 0] 207 = some out
      ∧ out[0]? = some (48 + d0) ∧ out[1]? = some (48 + d1) ∧ out[2]? = some (48 + d2)
      ∧ out[3]? = some 0x80
      ∧ 100 * d0 + 10 * d1 + d2 = 207 := by
  obtain ⟨out, d0, d1, d2, h, _, h0, h1, h2, h3, _, _, _, _, _, _, _, hd⟩ :=
    numToString_digits 4 [0, 0, 0, 0] 207 (by decide) (by decide) (by decide)
  exact ⟨by decide, out, d0, d1, d2, h, h0, h1, h2, h3, hd⟩

/-! ## The shape of the box -/

theorem updateBox_boxFor (t : Int) (w : Nat) (hw : w ≤ 127) :
    updateBox (boxFor t) w = some (boxFor (w : Int)) := by
  rw [updateBox_eq _ w (by simp [boxFor]) hw]
  simp [boxFor]

theorem initialVectorList_eq : initialVectorList = boxFor 80 := by
  decide

/-- C12 as stated fails: in the vector list of `main` for the half-width `80`
(its initial contents, which the update with `80` reproduces) the third and
fourth pairs are both `(0, 80)`, two horizontal moves in a row. -/
theorem box_alternation_counterexample :
    updateBox initialVectorList 80 = some initialVectorList
    ∧ (vectorPairs initialVectorList.tail)[2]? = some (0, 80)
    ∧ (vectorPairs initialVectorList.tail)[3]? = some (0, 80)
    ∧ isHorizontal ((0 : Int), (80 : Int))
    ∧ ¬ List.Chain' (fun p q => ¬ sameAxis p q) (vectorPairs initialVectorList.tail) := by
  refine ⟨by decide, by decide, by decide, by decide, ?_⟩
  rw [initialVectorList_eq]
  simp [boxFor, vectorPairs, sameAxis, isHorizontal, isVertical]

/-- C12, amended: in the vector list of `main`, for every half-width `w` in
`10..127`, every coordinate pair is a purely horizontal or a purely vertical
move; two consecutive pairs are both horizontal or both vertical only when they
are equal (the two halves in which one side of the box is drawn); and once
consecutive equal pairs are merged, no two consecutive pairs are both horizontal
or both vertical. -/
theorem box_alternation (w : Nat) (hw₁ : 10 ≤ w) (hw₂ : w ≤ 127) :
    ∃ vl, updateBox initialVectorList w = some vl
      ∧ (∀ d ∈ vectorPairs vl.tail, isHorizontal d ∨ isVertical d)
      ∧ List.Chain' (fun p q => sameAxis p q → p = q) (vectorPairs vl.tail)
      ∧ (vectorPairs vl.tail).destutter (fun p q => p ≠ q)
          = [(0, -(w : Int)), (-127, 0), (0, (w : Int)), (127, 0), (0, -(w : Int)), (-127, 0)]
      ∧ List.Chain' (fun p q => ¬ sameAxis p q)
          ((vectorPairs vl.tail).destutter (fun p q => p ≠ q)) := by
  have hw : (w : Int) ≠ 0 := by omega
  have e : (vectorPairs (boxFor (w : Int)).tail).destutter (fun p q => p ≠ q)
      = [(0, -(w : Int)), (-127, 0), (0, (w : Int)), (127, 0), (0, -(w : Int)), (-127, 0)] := by
    simp [boxFor, vectorPairs, List.destutter, List.destutter']
  refine ⟨boxFor (w : Int), ?_, ?_, ?_, e, ?_⟩
  · rw [initialVectorList_eq]
    exact updateBox_boxFor 80 w hw₂
  · simp [boxFor, vectorPairs, isHorizontal, isVertical, hw]
  · simp [boxFor, vectorPairs, sameAxis, isHorizontal, isVertical, hw]
  · rw [e]
    simp [sameAxis, isHorizontal, isVertical, hw]

theorem box_alternation_witness :
    (10 ≤ 100 ∧ 100 ≤ 127)
    ∧ ∃ vl, updateBox initialVectorList 100 = some vl
      ∧ (∀ d ∈ vectorPairs vl.tail, isHorizontal d ∨ isVertical d)
      ∧ List.Chain' (fun p q => sameAxis p q → p = q) (vectorPairs vl.tail) := by
  obtain ⟨vl, h1, h2, h3, _⟩ := box_alternation 100 (by decide) (by decide)
  exact ⟨by decide, vl, h1, h2, h3⟩

/-! ## The box across the frame loop -/

/-- One iteration of the loop has a result and leaves the box of the new
truncated width in the array. -/
theorem frame_boxInv (s : FrameState) (joyY joyX : Int) (hs : boxInv s)
    (hy : isSINT8 joyY) (hx : isSINT8 joyX) :
    ∃ s1, frame s joyY joyX = some s1 ∧ boxInv s1 := by
  obtain ⟨_, _, _, _, hl⟩ := hs
  obtain ⟨e1, e2, e3, e4⟩ := bounds_eq
  obtain ⟨r1, hr1, l1, u1⟩ :=
    adjustVariable_total s.scale16 joyY MIN_SCALE_16 MAX_SCALE_16 hy (by rw [e1, e2]; omega)
  obtain ⟨r2, hr2, l2, u2⟩ :=
    adjustVariable_total s.width16 joyX MIN_WIDTH_16 MAX_WIDTH_16 hx (by rw [e3, e4]; omega)
  rw [e1] at l1
  rw [e2] at u1
  rw [e3] at l2
  rw [e4] at u2
  have hw : getHighOrderByte r2 ≤ 127 := by
    rw [getHighOrderByte_eq]
    omega
  have hf : frame s joyY joyX = some
      { scale16 := r1, width16 := r2, vectorList := boxFor (getHighOrderByte r2 : Int) } := by
    unfold frame
    rw [hr1, Option.some_bind, hr2, Option.some_bind, hl, updateBox_boxFor _ _ hw,
      Option.some_bind]
  exact ⟨_, hf, l2, u2, l1, u1, rfl⟩

/-- Any finite run of the loop from a state that holds its box has a result that
holds its box. -/
theorem runFrames_boxInv (samples : List (Int × Int)) :
    ∀ s : FrameState, boxInv s → (∀ p ∈ samples, isSINT8 p.1 ∧ isSINT8 p.2) →
      ∃ s1, runFrames s samples = some s1 ∧ boxInv s1 := by
  induction samples with
  | nil =>
    intro s hs _
    exact ⟨s, rfl, hs⟩
  | cons p rest ih =>
    intro s hs hp
    obtain ⟨joyY, joyX⟩ := p
    have h0 := hp (joyY, joyX) (List.mem_cons_self _ _)
    obtain ⟨s1, hf, hs1⟩ := frame_boxInv s joyY joyX hs h0.1 h0.2
    obtain ⟨s2, hr, hs2⟩ := ih s1 hs1 (fun q hq => hp q (List.mem_cons_of_mem _ hq))
    refine ⟨s2, ?_, hs2⟩
    simp only [runFrames, hf, Option.some_bind, hr]

theorem initialState_boxInv : boxInv initialState := by
  unfold boxInv
  decide

/-- C13: in the initial state and after every loop iteration with arbitrary
signed 8-bit samples, with `t` the high byte of the current `width16`: entries
2, 6, 8, 14, 16 of `vectorList` are `-t, t, t, -t, -t`, every other entry has its
initial value (the whole array is `boxFor t`), and `10 ≤ t ≤ 127`, so that the
cast `(SINT8)t` is `t` and its negation is representable and equal to `-t`. -/
theorem runFrames_box (samples : List (Int × Int))
    (h : ∀ p ∈ samples, isSINT8 p.1 ∧ isSINT8 p.2) :
    ∃ s t, runFrames initialState samples = some s
      ∧ t = getHighOrderByte s.width16
      ∧ s.vectorList[2]? = some (-(t : Int)) ∧ s.vectorList[6]? = some (t : Int)
      ∧ s.vectorList[8]? = some (t : Int) ∧ s.vectorList[14]? = some (-(t : Int))
      ∧ s.vectorList[16]? = some (-(t : Int))
      ∧ (∀ i, i ∉ boxWriteIndices → s.vectorList[i]? = initialVectorList[i]?)
      ∧ s.vectorList = [8, 0, -(t : Int), -127, 0, 0, t, 0, t, 127, 0, 127, 0, 0, -(t : Int),
          0, -(t : Int), -127, 0]
      ∧ 10 ≤ t ∧ t ≤ 127
      ∧ toSINT8 t = (t : Int) ∧ -128 ≤ toSINT8 t ∧ toSINT8 t ≤ 127
      ∧ negSINT8 (toSINT8 t) = some (-(t : Int)) := by
  obtain ⟨s, hr, l, u, _, _, hb⟩ := runFrames_boxInv samples initialState initialState_boxInv h
  have ht : 10 ≤ getHighOrderByte s.width16 ∧ getHighOrderByte s.width16 ≤ 127 := by
    rw [getHighOrderByte_eq]
    omega
  have hc := toSINT8_of_le _ ht.2
  refine ⟨s, getHighOrderByte s.width16, hr, rfl, ?_, ?_, ?_, ?_, ?_, ?_, hb, ht.1, ht.2, hc,
    by omega, by omega, ?_⟩
  · rw [hb]; rfl
  · rw [hb]; rfl
  · rw [hb]; rfl
  · rw [hb]; rfl
  · rw [hb]; rfl
  · intro i hi
    simp only [boxWriteIndices, List.mem_cons, List.mem_singleton, List.not_mem_nil,
      or_false, not_or] at hi
    obtain ⟨h2, h6, h8, h14, h16⟩ := hi
    rw [hb, initialVectorList_eq]
    have hcases : i = 0 ∨ i = 1 ∨ i = 3 ∨ i = 4 ∨ i = 5 ∨ i = 7 ∨ i = 9 ∨ i = 10 ∨ i = 11
        ∨ i = 12 ∨ i = 13 ∨ i = 15 ∨ i = 17 ∨ i = 18 ∨ 19 ≤ i := by omega
    rcases hcases with rfl | rfl | rfl | rfl | rfl | rfl | rfl | rfl | rfl | rfl | rfl | rfl
      | rfl | rfl | h19
    all_goals first
      | rfl
      | (rw [List.getElem?_eq_none (by simpa [boxFor] using h19),
          List.getElem?_eq_none (by simpa [boxFor] using h19)])
  · rw [hc]
    exact negSINT8_of_le _ ht.2

theorem runFrames_box_witness :
    (∀ p ∈ [((127 : Int), (-128 : Int)), (-128, 127), (0, 31)], isSINT8 p.1 ∧ isSINT8 p.2)
    ∧ ∃ s t, runFrames initialState [((127 : Int), (-128 : Int)), (-128, 127), (0, 31)] = some s
      ∧ t = getHighOrderByte s.width16
      ∧ s.vectorList = [8, 0, -(t : Int), -127, 0, 0, t, 0, t, 127, 0, 127, 0, 0, -(t : Int),
          0, -(t : Int), -127, 0]
      ∧ 10 ≤ t ∧ t ≤ 127 := by
  obtain ⟨s, t, h1, h2, _, _, _, _, _, _, h3, h4, h5, _⟩ :=
    runFrames_box [((127 : Int), (-128 : Int)), (-128, 127), (0, 31)] (by decide)
  exact ⟨by decide, s, t, h1, h2, h3, h4, h5⟩

end VectrexScreenLimitTest
